import Mathlib

/-!
Verification of the redis_info_provider core: the shard data model, the shard
publisher (registry), the info query servicer and the local shard watcher.

The repository sources contain `local_watcher.py` (the discovery source) and the
servicer test-suite; the servicer, publisher and shard classes themselves are
absent from the sources, so those parts are modelled from the specification
(each such definition is marked `Modelled from the spec:`).  `local_watcher.py`
is embedded directly from its code.

Time is wall-clock time passed explicitly as a rational number of seconds.
-/

set_option autoImplicit false

namespace RedisInfo

/-- A status snapshot (the Redis INFO reply): a key → value mapping, as an
association list. -/
abbrev Info := List (String × String)

/-- Modelled from the spec: the `RedisShard` class (absent from the repository
sources; spec §3).  A shard holds its id, the stored zero-argument connection
factory (represented by the connection parameters it would use, `none` standing
for a non-invocable factory such as the tests pass), the last snapshot (`none`
while UNPOLLED) and the snapshot's wall-clock timestamp. -/
structure Shard where
  id : String
  factory : Option Nat
  info : Option Info
  info_timestamp : ℚ
deriving DecidableEq, Repr

/-- Modelled from the spec: constructing a `RedisShard` stores the factory
without invoking it and starts UNPOLLED (no snapshot yet). -/
def mkShard (id : String) (factory : Option Nat) : Shard :=
  { id := id, factory := factory, info := none, info_timestamp := 0 }

/-- Modelled from the spec: assigning `shard.info` records the snapshot and
stamps it with the current wall-clock time, as one atomic unit. -/
def setInfo (s : Shard) (i : Info) (now : ℚ) : Shard :=
  { s with info := some i, info_timestamp := now }

/-- Modelled from the spec: the sentinel "effectively infinite" info age,
greater than 1e9 seconds. -/
def INFINITE_AGE : ℚ := 1000000000000

/-- Modelled from the spec: `current_info_age()` — `now - snapshot_timestamp`,
or the sentinel infinite value while UNPOLLED. -/
def currentInfoAge (now : ℚ) (s : Shard) : ℚ :=
  match s.info with
  | none => INFINITE_AGE
  | some _ => now - s.info_timestamp

/-- Modelled from the spec: the `ShardPublisher` registry (absent from the
repository sources; spec §4.2) — a directory id → Shard with at most one shard
per id, represented as a list of shards with pairwise distinct ids. -/
abbrev Publisher := List Shard

/-- Modelled from the spec: `get(id)` — the shard registered under `i`, if any. -/
def getShard (pub : Publisher) (i : String) : Option Shard :=
  pub.find? (fun s => s.id == i)

/-- Modelled from the spec: `add(shard)` inserts, replacing any shard with the
same id. -/
def addShard (pub : Publisher) (s : Shard) : Publisher :=
  s :: pub.filter (fun t => !(t.id == s.id))

/-- Modelled from the spec: `remove(id)`, a no-op when the id is absent. -/
def delShard (pub : Publisher) (i : String) : Publisher :=
  pub.filter (fun t => !(t.id == i))

/-- Modelled from the spec: `get_live_shard_ids()` — the ids currently
registered. -/
def liveIds (pub : Publisher) : List String :=
  pub.map Shard.id

/-- Modelled from the spec: glob matching of one pattern against one key —
`*` matches any run of characters, matching is case-sensitive and anchored to
the whole key. -/
def globMatchAux : List Char → List Char → Bool
  | [], [] => true
  | [], _ :: _ => false
  | '*' :: ps, [] => globMatchAux ps []
  | '*' :: ps, c :: cs => globMatchAux ps (c :: cs) || globMatchAux ('*' :: ps) cs
  | p :: ps, c :: cs => (p == c) && globMatchAux ps cs
  | _ :: _, [] => false
termination_by ps cs => (ps.length, cs.length)

/-- Glob matching on strings. -/
def globMatch (p s : String) : Bool :=
  globMatchAux p.data s.data

/-- Declarative reading of the glob language of the spec: the empty pattern
matches the empty key, a literal character matches itself, and `*` matches any
run of characters. -/
inductive GlobSpec : List Char → List Char → Prop where
  | nil : GlobSpec [] []
  | char {ps cs : List Char} (c : Char) : GlobSpec ps cs → GlobSpec (c :: ps) (c :: cs)
  | star {ps cs : List Char} (ws : List Char) :
      GlobSpec ps cs → GlobSpec ('*' :: ps) (ws ++ cs)

/-- Modelled from the spec: whether a snapshot key survives the `key_patterns`
filter — kept when no patterns were given, or when at least one pattern
matches. -/
def keepKey (pats : Option (List String)) (k : String) : Bool :=
  match pats with
  | none => true
  | some ps => ps.any (fun p => globMatch p k)

/-- The metadata block of one query response entry. -/
structure MetaBlock where
  shard_identifier : String
  info_age : ℚ
  error : Option String
deriving DecidableEq, Repr

/-- One query response entry: the filtered snapshot plus the metadata block. -/
structure Entry where
  info : Info
  meta : MetaBlock
deriving DecidableEq, Repr

/-- Modelled from the spec: whether a requested id is unknown to the registry
or known but still UNPOLLED (spec §4.3 step 3). -/
def isMissing (pub : Publisher) (i : String) : Bool :=
  match getShard pub i with
  | none => true
  | some s => s.info.isNone

/-- Modelled from the spec: the entry produced for one requested id from the
result of its registry lookup (spec §4.3 steps 2 and 5): a real filtered entry,
or a meta-only placeholder when the id is unknown or still UNPOLLED. -/
def entryOfLookup (now : ℚ) (pats : Option (List String)) (i : String) :
    Option Shard → Entry
  | none =>
      { info := [],
        meta := { shard_identifier := i, info_age := INFINITE_AGE,
                  error := some ("shard " ++ i ++ " not found") } }
  | some s =>
      match s.info with
      | none =>
          { info := [],
            meta := { shard_identifier := i, info_age := INFINITE_AGE,
                      error := some ("info for shard " ++ i ++ " not available") } }
      | some info =>
          { info := info.filter (fun kv => keepKey pats kv.1),
            meta := { shard_identifier := i, info_age := now - s.info_timestamp,
                      error := none } }

/-- The entry produced for one requested id. -/
def mkEntry (pub : Publisher) (now : ℚ) (pats : Option (List String)) (i : String) :
    Entry :=
  entryOfLookup now pats i (getShard pub i)

/-- Modelled from the spec: `InfoProviderServicer.GetInfos` (absent from the
repository sources; spec §4.3).  Resolves absent `shard_ids` to all registered
ids; with `allowPartial` false any unknown or UNPOLLED id aborts the whole call
with the list of offending ids; otherwise each requested id yields one entry. -/
def getInfos (pub : Publisher) (now : ℚ) (shard_ids : Option (List String))
    (key_patterns : Option (List String)) (allowPartial : Bool) :
    Except (List String) (List Entry) :=
  let ids := match shard_ids with | none => liveIds pub | some l => l
  if allowPartial then
    Except.ok (ids.map (mkEntry pub now key_patterns))
  else
    match ids.filter (isMissing pub) with
    | [] => Except.ok (ids.map (mkEntry pub now key_patterns))
    | missing => Except.error missing

/-- Observable side effects of the model: an invocation of a shard's stored
connection factory, or a write of a shard's snapshot. -/
inductive Event where
  | factoryInvoked (id : String)
  | snapshotWritten (id : String)
deriving DecidableEq, Repr

/-- A registry lookup is a pure read: it returns the shard, the registry as it
was, and no events. -/
def getShardE (pub : Publisher) (i : String) : Option Shard × Publisher × List Event :=
  (getShard pub i, pub, [])

/-- Modelled from the spec: `refresh()` (spec §4.1) — invokes the stored
connection factory, and on success atomically replaces snapshot and timestamp;
on failure (no connection, or fetch failed) leaves the shard unchanged.
`fetched` is the INFO reply the connection would return, `none` on failure. -/
def refreshE (s : Shard) (fetched : Option Info) (now : ℚ) : Shard × List Event :=
  match s.factory with
  | none => (s, [Event.factoryInvoked s.id])
  | some _ =>
    match fetched with
    | none => (s, [Event.factoryInvoked s.id])
    | some i => (setInfo s i now, [Event.factoryInvoked s.id, Event.snapshotWritten s.id])

/-- Constructing a `RedisShard` stores the factory closure without invoking it:
no event. -/
def mkShardE (id : String) (factory : Option Nat) : Shard × List Event :=
  (mkShard id factory, [])

/-- Modelled from the spec: registering a shard publishes it; the factory is
invoked lazily, never at registration time, so registration emits no
factory-invocation event. -/
def addShardE (pub : Publisher) (s : Shard) : Publisher × List Event :=
  (addShard pub s, [])

/-- Register a list of shards in order, accumulating events. -/
def addAllE : Publisher → List Shard → Publisher × List Event
  | pub, [] => (pub, [])
  | pub, s :: rest =>
    let r1 := addShardE pub s
    let r2 := addAllE r1.1 rest
    (r2.1, r1.2 ++ r2.2)

/-- The per-id step of the query, threading the registry state and events
through the lookup. -/
def mkEntryE (pub : Publisher) (now : ℚ) (pats : Option (List String)) (i : String) :
    Entry × Publisher × List Event :=
  let r := getShardE pub i
  (entryOfLookup now pats i r.1, r.2.1, r.2.2)

/-- Process the resolved id list in order, threading the registry state and
accumulating events. -/
def getInfosListE (now : ℚ) (pats : Option (List String)) :
    Publisher → List String → List Entry × Publisher × List Event
  | pub, [] => ([], pub, [])
  | pub, i :: rest =>
    let r1 := mkEntryE pub now pats i
    let r2 := getInfosListE now pats r1.2.1 rest
    (r1.1 :: r2.1, r2.2.1, r1.2.2 ++ r2.2.2)

/-- `GetInfos` with its reads threaded through the registry state, returning
the result together with the registry after the call and the events emitted. -/
def getInfosE (pub : Publisher) (now : ℚ) (shard_ids : Option (List String))
    (key_patterns : Option (List String)) (allowPartial : Bool) :
    Except (List String) (List Entry) × Publisher × List Event :=
  let ids := match shard_ids with | none => liveIds pub | some l => l
  if allowPartial then
    let r := getInfosListE now key_patterns pub ids
    (Except.ok r.1, r.2.1, r.2.2)
  else
    match ids.filter (isMissing pub) with
    | [] =>
      let r := getInfosListE now key_patterns pub ids
      (Except.ok r.1, r.2.1, r.2.2)
    | missing => (Except.error missing, pub, [])

/-! ## The local shard watcher, embedded from `local_watcher.py` -/

/-- From `_get_cur_live_shards`: for each detected redis-server process — a pid
together with the connection parameters found for it (`none` when no listening
connection could be determined) — build a `RedisShard` keyed by pid, storing a
factory closure over the parameters; processes without parameters are skipped. -/
def getCurLiveShards (procs : List (Nat × Option Nat)) : List Shard :=
  procs.filterMap (fun p =>
    match p.2 with
    | none => none
    | some kwargs => some (mkShard (toString p.1) (some kwargs)))

/-- `_get_cur_live_shards` with events: building the shard dictionary creates
and stores factory closures but never invokes one. -/
def getCurLiveShardsE (procs : List (Nat × Option Nat)) : List Shard × List Event :=
  procs.foldr (fun p acc =>
    match p.2 with
    | none => acc
    | some kwargs =>
      let r := mkShardE (toString p.1) (some kwargs)
      (r.1 :: acc.1, r.2 ++ acc.2)) ([], [])

/-- From `_greenlet_main` (the staleness monitor): the info age the watcher
computes for a published shard at wall-clock time `check_ts`. -/
def watcherInfoAge (check_ts : ℚ) (s : Shard) : ℚ :=
  check_ts - s.info_timestamp

/-- From `_greenlet_main` (the reconciliation part of one loop iteration):
add to the publisher every detected shard whose id is not yet published, then
remove every published id no longer detected. -/
def scanCycle (pub : Publisher) (cur : List Shard) : Publisher :=
  let publishedIds := liveIds pub
  let curIds := cur.map Shard.id
  let pub1 := cur.foldl (fun p s => if s.id ∈ publishedIds then p else addShard p s) pub
  publishedIds.foldl (fun p i => if i ∈ curIds then p else delShard p i) pub1

/-- From `_greenlet_main`: the `try/except` wraps the entire `while` loop, so
an exception escaping any iteration ends the loop (the handler logs, sleeps and
the function returns).  `stop k` models the stop event as observed at the top
of iteration `k`; `raises k` models an exception escaping iteration `k`; the
result lists the indices of the iterations that began, under a fuel bound on
how many loop tests are unrolled. -/
def greenletTrace (stop raises : Nat → Bool) : Nat → Nat → List Nat
  | 0, _ => []
  | fuel + 1, k =>
    if stop k then []
    else if raises k then [k]
    else k :: greenletTrace stop raises fuel (k + 1)

/-! ## Supporting lemmas: the registry -/

theorem mem_liveIds {pub : Publisher} {i : String} :
    i ∈ liveIds pub ↔ ∃ s, s ∈ pub ∧ s.id = i := by
  simp [liveIds, List.mem_map]

theorem getShard_eq_none {pub : Publisher} {i : String} :
    getShard pub i = none ↔ i ∉ liveIds pub := by
  rw [getShard, List.find?_eq_none]
  constructor
  · intro h hmem
    obtain ⟨s, hs, hid⟩ := mem_liveIds.mp hmem
    have := h s hs
    simp [hid] at this
  · intro h s hs hb
    exact h (mem_liveIds.mpr ⟨s, hs, by simpa using hb⟩)

theorem getShard_some {pub : Publisher} {i : String} {s : Shard}
    (h : getShard pub i = some s) : s ∈ pub ∧ s.id = i := by
  refine ⟨List.mem_of_find?_eq_some h, ?_⟩
  have := List.find?_some h
  simpa using this

theorem getShard_addShard_self (pub : Publisher) (s : Shard) :
    getShard (addShard pub s) s.id = some s := by
  simp [getShard, addShard, List.find?_cons]

theorem getShard_filter_ne {pub : Publisher} {i j : String} (hij : i ≠ j) :
    (pub.filter (fun t => !(t.id == j))).find? (fun t => t.id == i) =
      pub.find? (fun t => t.id == i) := by
  induction pub with
  | nil => rfl
  | cons t rest ih =>
    by_cases ht : t.id = j
    · have hti : (t.id == i) = false := by
        rw [beq_eq_false_iff_ne, ht]
        exact fun hh => hij hh.symm
      have hji : (j == i) = false := by
        rw [beq_eq_false_iff_ne]
        exact fun hh => hij hh.symm
      simp only [List.filter_cons, ht, beq_self_eq_true, Bool.not_true,
        Bool.false_eq_true, if_false, List.find?_cons, hti, hji, ih]
    · have htb : (!(t.id == j)) = true := by simp [ht]
      simp only [List.filter_cons, htb, if_true, List.find?_cons]
      cases hti : (t.id == i) with
      | true => rfl
      | false => exact ih

theorem getShard_addShard_ne {pub : Publisher} {s : Shard} {i : String}
    (h : i ≠ s.id) : getShard (addShard pub s) i = getShard pub i := by
  have hsi : (s.id == i) = false := by
    simp only [beq_eq_false_iff_ne, ne_eq]
    exact fun hh => h (hh ▸ rfl)
  simp only [getShard, addShard, List.find?_cons, hsi]
  exact getShard_filter_ne h

theorem getShard_delShard_ne {pub : Publisher} {j i : String}
    (h : i ≠ j) : getShard (delShard pub j) i = getShard pub i := by
  simp only [getShard, delShard]
  exact getShard_filter_ne h

theorem mem_liveIds_addShard {pub : Publisher} {s : Shard} {i : String} :
    i ∈ liveIds (addShard pub s) ↔ i = s.id ∨ i ∈ liveIds pub := by
  constructor
  · intro h
    obtain ⟨t, ht, hid⟩ := mem_liveIds.mp h
    rcases List.mem_cons.mp ht with h1 | h2
    · exact Or.inl (by rw [← hid, h1])
    · exact Or.inr (mem_liveIds.mpr ⟨t, (List.mem_filter.mp h2).1, hid⟩)
  · intro h
    rcases h with h | h
    · exact mem_liveIds.mpr ⟨s, List.mem_cons_self _ _, h.symm⟩
    · obtain ⟨t, ht, hid⟩ := mem_liveIds.mp h
      by_cases hts : t.id = s.id
      · exact mem_liveIds.mpr ⟨s, List.mem_cons_self _ _, by rw [← hts, hid]⟩
      · refine mem_liveIds.mpr ⟨t, List.mem_cons_of_mem _ ?_, hid⟩
        exact List.mem_filter.mpr ⟨ht, by simpa using hts⟩

theorem mem_liveIds_delShard {pub : Publisher} {j i : String} :
    i ∈ liveIds (delShard pub j) ↔ i ∈ liveIds pub ∧ i ≠ j := by
  constructor
  · intro h
    obtain ⟨t, ht, hid⟩ := mem_liveIds.mp h
    have h2 := List.mem_filter.mp ht
    refine ⟨mem_liveIds.mpr ⟨t, h2.1, hid⟩, ?_⟩
    rw [← hid]
    simpa using h2.2
  · rintro ⟨h, hne⟩
    obtain ⟨t, ht, hid⟩ := mem_liveIds.mp h
    refine mem_liveIds.mpr ⟨t, List.mem_filter.mpr ⟨ht, ?_⟩, hid⟩
    rw [hid]
    simpa using hne

theorem nodup_liveIds_addShard {pub : Publisher} (s : Shard)
    (h : (liveIds pub).Nodup) : (liveIds (addShard pub s)).Nodup := by
  simp only [liveIds, addShard, List.map_cons, List.nodup_cons]
  constructor
  · intro hmem
    obtain ⟨t, htmem, htid⟩ := List.mem_map.mp hmem
    have := (List.mem_filter.mp htmem).2
    rw [htid] at this
    simp at this
  · exact h.sublist (List.Sublist.map Shard.id (List.filter_sublist pub))

theorem nodup_liveIds_delShard {pub : Publisher} (j : String)
    (h : (liveIds pub).Nodup) : (liveIds (delShard pub j)).Nodup :=
  h.sublist (List.Sublist.map Shard.id (List.filter_sublist pub))

/-! ## Supporting lemmas: the glob matcher agrees with the declarative glob
language -/

theorem globSpec_star_cons {ps cs : List Char} {c : Char}
    (h : GlobSpec ('*' :: ps) cs) : GlobSpec ('*' :: ps) (c :: cs) := by
  cases h with
  | char _ h2 => exact GlobSpec.star (c :: ['*']) h2
  | star ws h2 => exact GlobSpec.star (c :: ws) h2

theorem globMatchAux_star {ps cs : List Char} (ws : List Char)
    (h : globMatchAux ps cs = true) : globMatchAux ('*' :: ps) (ws ++ cs) = true := by
  induction ws with
  | nil =>
    cases cs with
    | nil => simpa [globMatchAux] using h
    | cons c cs2 => simp [globMatchAux, h]
  | cons w ws2 ih => simp [globMatchAux, ih]

theorem globMatchAux_sound (ps cs : List Char) :
    globMatchAux ps cs = true → GlobSpec ps cs := by
  induction ps, cs using globMatchAux.induct with
  | case1 => intro _; exact GlobSpec.nil
  | case2 head tail => intro h; simp [globMatchAux] at h
  | case3 ps ih =>
    intro h
    rw [show globMatchAux ('*' :: ps) [] = globMatchAux ps [] from by simp [globMatchAux]] at h
    simpa using GlobSpec.star [] (ih h)
  | case4 ps c cs ih1 ih2 =>
    intro h
    rw [show globMatchAux ('*' :: ps) (c :: cs) =
        (globMatchAux ps (c :: cs) || globMatchAux ('*' :: ps) cs) from by
      simp [globMatchAux]] at h
    rcases Bool.or_eq_true_iff.mp h with h1 | h2
    · simpa using GlobSpec.star [] (ih1 h1)
    · exact globSpec_star_cons (ih2 h2)
  | case5 p ps c cs hne ih =>
    intro h
    rw [show globMatchAux (p :: ps) (c :: cs) = ((p == c) && globMatchAux ps cs) from by
      simp [globMatchAux, hne]] at h
    obtain ⟨h1, h2⟩ := Bool.and_eq_true_iff.mp h
    have : p = c := by simpa using h1
    subst this
    exact GlobSpec.char p (ih h2)
  | case6 head tail hne =>
    intro h
    rw [show globMatchAux (head :: tail) [] = false from by simp [globMatchAux, hne]] at h
    simp at h

theorem globMatchAux_complete {ps cs : List Char} (h : GlobSpec ps cs) :
    globMatchAux ps cs = true := by
  induction h with
  | nil => simp [globMatchAux]
  | @char ps2 cs2 c h ih =>
    by_cases hc : c = '*'
    · subst hc
      exact globMatchAux_star ['*'] ih
    · rw [show globMatchAux (c :: ps2) (c :: cs2) = ((c == c) && globMatchAux ps2 cs2) from by
        simp [globMatchAux, hc]]
      simp [ih]
  | star ws h ih => exact globMatchAux_star ws ih

theorem globMatch_iff {p s : String} :
    globMatch p s = true ↔ GlobSpec p.data s.data :=
  ⟨globMatchAux_sound _ _, globMatchAux_complete⟩

/-- `isMissing` holds exactly for ids that are unknown to the registry or whose
shard is still UNPOLLED. -/
theorem isMissing_iff {pub : Publisher} {i : String} :
    isMissing pub i = true ↔
      getShard pub i = none ∨ ∃ s, getShard pub i = some s ∧ s.info = none := by
  unfold isMissing
  cases h : getShard pub i with
  | none => simp
  | some s =>
    cases hi : s.info with
    | none => simp [Option.isNone, hi]
    | some v => simp [Option.isNone, hi]

theorem entryOfLookup_id (now : ℚ) (pats : Option (List String)) (i : String)
    (os : Option Shard) : (entryOfLookup now pats i os).meta.shard_identifier = i := by
  cases os with
  | none => rfl
  | some s => cases h : s.info <;> simp [entryOfLookup, h]

/-- Every entry identifies the id it was produced for. -/
theorem mkEntry_id (pub : Publisher) (now : ℚ) (pats : Option (List String))
    (i : String) : (mkEntry pub now pats i).meta.shard_identifier = i :=
  entryOfLookup_id now pats i (getShard pub i)

/-! ## Supporting lemmas: the event-instrumented model, the scan cycle and the
watcher loop -/

theorem getInfosListE_pure (now : ℚ) (pats : Option (List String)) :
    ∀ (ids : List String) (pub : Publisher),
      getInfosListE now pats pub ids = (ids.map (mkEntry pub now pats), pub, []) := by
  intro ids
  induction ids with
  | nil => intro pub; rfl
  | cons i rest ih => intro pub; simp [getInfosListE, mkEntryE, getShardE, ih, mkEntry]

theorem addAllE_pure : ∀ (shards : List Shard) (pub : Publisher),
    addAllE pub shards = (shards.foldl addShard pub, []) := by
  intro shards
  induction shards with
  | nil => intro pub; rfl
  | cons s rest ih => intro pub; simp [addAllE, addShardE, ih]

theorem getCurLiveShardsE_eq (procs : List (Nat × Option Nat)) :
    getCurLiveShardsE procs = (getCurLiveShards procs, []) := by
  induction procs with
  | nil => rfl
  | cons p rest ih =>
    simp only [getCurLiveShardsE, List.foldr_cons] at ih ⊢
    rw [ih]
    cases h : p.2 with
    | none => simp [getCurLiveShards, List.filterMap_cons, h]
    | some k => simp [getCurLiveShards, List.filterMap_cons, h, mkShardE]

theorem foldl_add_mem (P : List String) (cur : List Shard) :
    ∀ (pub : Publisher) (i : String),
      i ∈ liveIds (cur.foldl (fun p s => if s.id ∈ P then p else addShard p s) pub) ↔
        i ∈ liveIds pub ∨ (i ∈ cur.map Shard.id ∧ i ∉ P) := by
  induction cur with
  | nil => intro pub i; simp
  | cons s cs ih =>
    intro pub i
    rw [List.foldl_cons]
    by_cases hs : s.id ∈ P
    · rw [if_pos hs, ih]
      simp only [List.map_cons, List.mem_cons]
      by_cases hi : i = s.id
      · subst hi; tauto
      · tauto
    · rw [if_neg hs, ih, mem_liveIds_addShard]
      simp only [List.map_cons, List.mem_cons]
      by_cases hi : i = s.id
      · subst hi; tauto
      · tauto

theorem foldl_del_mem (C : List String) (toDel : List String) :
    ∀ (pub : Publisher) (i : String),
      i ∈ liveIds (toDel.foldl (fun p j => if j ∈ C then p else delShard p j) pub) ↔
        i ∈ liveIds pub ∧ (i ∈ toDel → i ∈ C) := by
  induction toDel with
  | nil => intro pub i; simp
  | cons j js ih =>
    intro pub i
    rw [List.foldl_cons]
    by_cases hj : j ∈ C
    · rw [if_pos hj, ih]
      simp only [List.mem_cons]
      by_cases hi : i = j
      · subst hi; tauto
      · tauto
    · rw [if_neg hj, ih, mem_liveIds_delShard]
      simp only [List.mem_cons]
      by_cases hi : i = j
      · subst hi; tauto
      · tauto

theorem foldl_add_getShard (P : List String) (cur : List Shard) :
    ∀ (pub : Publisher) (i : String), i ∈ P →
      getShard (cur.foldl (fun p s => if s.id ∈ P then p else addShard p s) pub) i =
        getShard pub i := by
  induction cur with
  | nil => intro pub i _; rfl
  | cons s cs ih =>
    intro pub i hi
    rw [List.foldl_cons]
    by_cases hs : s.id ∈ P
    · rw [if_pos hs]; exact ih pub i hi
    · rw [if_neg hs, ih (addShard pub s) i hi]
      exact getShard_addShard_ne (fun hh => hs (hh ▸ hi))

theorem foldl_del_getShard (C : List String) (toDel : List String) :
    ∀ (pub : Publisher) (i : String), i ∈ C →
      getShard (toDel.foldl (fun p j => if j ∈ C then p else delShard p j) pub) i =
        getShard pub i := by
  induction toDel with
  | nil => intro pub i _; rfl
  | cons j js ih =>
    intro pub i hi
    rw [List.foldl_cons]
    by_cases hj : j ∈ C
    · rw [if_pos hj]; exact ih pub i hi
    · rw [if_neg hj, ih (delShard pub j) i hi]
      exact getShard_delShard_ne (fun hh => hj (hh ▸ hi))

theorem greenletTrace_eq (stop raises : Nat → Bool) (m : Nat)
    (hstop : ∀ j, stop j = false) (hm : raises m = true)
    (hfirst : ∀ j, j < m → raises j = false) :
    ∀ (fuel k : Nat), k ≤ m →
      greenletTrace stop raises fuel k =
        (List.range (min fuel (m + 1 - k))).map (fun x => k + x) := by
  intro fuel
  induction fuel with
  | zero => intro k _; simp [greenletTrace]
  | succ f ih =>
    intro k hk
    rw [greenletTrace]
    rw [hstop k]
    simp only [Bool.false_eq_true, if_false]
    by_cases hr : raises k = true
    · have hkm : k = m := by
        by_contra hne
        have : k < m := lt_of_le_of_ne hk hne
        rw [hfirst k this] at hr
        exact Bool.false_ne_true hr
      subst hkm
      rw [if_pos hr]
      simp [List.range_succ]
    · have hkm : k < m := by
        rcases lt_or_eq_of_le hk with h | h
        · exact h
        · subst h; exact absurd hm hr
      rw [if_neg hr, ih (k + 1) hkm]
      have h3 : m + 1 - (k + 1) = m - k := by omega
      rw [h3]
      have h1 : m + 1 - k = (m - k) + 1 := by omega
      have h2 : min (f + 1) ((m - k) + 1) = (min f (m - k)) + 1 := by omega
      rw [h1, h2, List.range_succ_eq_map]
      simp only [List.map_cons, Nat.add_zero, List.map_map]
      congr 1
      apply List.map_congr_left
      intro a _
      simp [Function.comp]
      omega


/-! ## The claims -/

/-- C1 -/
theorem getInfos_strict_not_found_atomic (pub : Publisher) (now : ℚ) (ids : List String)
    (pats : Option (List String)) (i : String) (hi : i ∈ ids)
    (hmiss : getShard pub i = none ∨ ∃ s, getShard pub i = some s ∧ s.info = none) :
    ∃ errs, getInfos pub now (some ids) pats false = Except.error errs ∧
      i ∈ errs ∧ errs ≠ [] ∧
      ∀ j, j ∈ errs ↔ j ∈ ids ∧
        (getShard pub j = none ∨ ∃ s, getShard pub j = some s ∧ s.info = none) := by
  have hmb : isMissing pub i = true := isMissing_iff.mpr hmiss
  have hmem : i ∈ ids.filter (isMissing pub) := List.mem_filter.mpr ⟨hi, hmb⟩
  refine ⟨ids.filter (isMissing pub), ?_, hmem, List.ne_nil_of_mem hmem, ?_⟩
  · simp only [getInfos, Bool.false_eq_true, if_false]
    cases hf : ids.filter (isMissing pub) with
    | nil => rw [hf] at hmem; simp at hmem
    | cons a as => rfl
  · intro j
    rw [List.mem_filter, isMissing_iff]

def pubW : Publisher :=
  addShard (addShard [] (setInfo (mkShard "shard-1" none) [("dummy", "dummy")] 5))
    (mkShard "shard-2" none)

theorem getInfos_strict_not_found_atomic_witness :
    ∃ errs, getInfos pubW 6 (some ["shard-1", "shard-x"]) none false = Except.error errs ∧
      "shard-x" ∈ errs ∧ errs ≠ [] ∧
      ∀ j, j ∈ errs ↔ j ∈ ["shard-1", "shard-x"] ∧
        (getShard pubW j = none ∨ ∃ s, getShard pubW j = some s ∧ s.info = none) :=
  getInfos_strict_not_found_atomic pubW 6 ["shard-1", "shard-x"] none "shard-x"
    (by decide) (Or.inl (by decide))

/-- C2 -/
theorem getInfos_partial_unknown_placeholder (pub : Publisher) (now : ℚ)
    (ids : List String) (pats : Option (List String)) (i : String)
    (hunk : getShard pub i = none) :
    ∃ es, getInfos pub now (some ids) pats true = Except.ok es ∧
      es.length = ids.length ∧
      (∀ k (hk : k < es.length) (hk2 : k < ids.length),
        (es.get ⟨k, hk⟩).meta.shard_identifier = ids.get ⟨k, hk2⟩) ∧
      (∀ k (hk : k < es.length) (hk2 : k < ids.length), ids.get ⟨k, hk2⟩ = i →
        (es.get ⟨k, hk⟩).info = [] ∧
        (es.get ⟨k, hk⟩).meta.error = some ("shard " ++ i ++ " not found") ∧
        (es.get ⟨k, hk⟩).meta.info_age = INFINITE_AGE) ∧
      (1000000000 : ℚ) < INFINITE_AGE := by
  refine ⟨ids.map (mkEntry pub now pats), by simp [getInfos], by simp, ?_, ?_,
    by norm_num [INFINITE_AGE]⟩
  · intro k hk hk2
    simp only [List.get_eq_getElem, List.getElem_map]
    exact mkEntry_id pub now pats _
  · intro k hk hk2 hik
    simp only [List.get_eq_getElem, List.getElem_map] at *
    rw [hik]
    simp [mkEntry, entryOfLookup, hunk]

theorem getInfos_partial_unknown_placeholder_witness :
    ∃ es, getInfos pubW 6 (some ["shard-x"]) none true = Except.ok es ∧
      es.length = (["shard-x"] : List String).length ∧
      (∀ k (hk : k < es.length) (hk2 : k < (["shard-x"] : List String).length),
        (es.get ⟨k, hk⟩).meta.shard_identifier = (["shard-x"] : List String).get ⟨k, hk2⟩) ∧
      (∀ k (hk : k < es.length) (hk2 : k < (["shard-x"] : List String).length),
        (["shard-x"] : List String).get ⟨k, hk2⟩ = "shard-x" →
        (es.get ⟨k, hk⟩).info = [] ∧
        (es.get ⟨k, hk⟩).meta.error = some ("shard " ++ "shard-x" ++ " not found") ∧
        (es.get ⟨k, hk⟩).meta.info_age = INFINITE_AGE) ∧
      (1000000000 : ℚ) < INFINITE_AGE :=
  getInfos_partial_unknown_placeholder pubW 6 ["shard-x"] none "shard-x" (by decide)

/-- C3 -/
theorem getInfos_partial_unpolled_placeholder (pub : Publisher) (now : ℚ)
    (ids : List String) (pats : Option (List String)) (i : String) (s : Shard)
    (hs : getShard pub i = some s) (hup : s.info = none) :
    ∃ es, getInfos pub now (some ids) pats true = Except.ok es ∧
      es.length = ids.length ∧
      (∀ k (hk : k < es.length) (hk2 : k < ids.length), ids.get ⟨k, hk2⟩ = i →
        (es.get ⟨k, hk⟩).info = [] ∧
        (es.get ⟨k, hk⟩).meta.error = some ("info for shard " ++ i ++ " not available") ∧
        (es.get ⟨k, hk⟩).meta.info_age = INFINITE_AGE) ∧
      (1000000000 : ℚ) < INFINITE_AGE := by
  refine ⟨ids.map (mkEntry pub now pats), by simp [getInfos], by simp, ?_,
    by norm_num [INFINITE_AGE]⟩
  intro k hk hk2 hik
  simp only [List.get_eq_getElem, List.getElem_map] at *
  rw [hik]
  simp [mkEntry, entryOfLookup, hs, hup]

theorem getInfos_partial_unpolled_placeholder_witness :
    ∃ es, getInfos pubW 6 (some ["shard-2"]) none true = Except.ok es ∧
      es.length = (["shard-2"] : List String).length ∧
      (∀ k (hk : k < es.length) (hk2 : k < (["shard-2"] : List String).length),
        (["shard-2"] : List String).get ⟨k, hk2⟩ = "shard-2" →
        (es.get ⟨k, hk⟩).info = [] ∧
        (es.get ⟨k, hk⟩).meta.error = some ("info for shard " ++ "shard-2" ++ " not available") ∧
        (es.get ⟨k, hk⟩).meta.info_age = INFINITE_AGE) ∧
      (1000000000 : ℚ) < INFINITE_AGE :=
  getInfos_partial_unpolled_placeholder pubW 6 ["shard-2"] none "shard-2"
    (mkShard "shard-2" none) (by decide) (by decide)



/-- C4 -/
theorem getInfos_key_pattern_filtering (pub : Publisher) (now : ℚ) (i : String)
    (s : Shard) (info : Info) (pats : Option (List String))
    (hs : getShard pub i = some s) (hi : s.info = some info) :
    ∃ e, getInfos pub now (some [i]) pats true = Except.ok [e] ∧
      e.meta = { shard_identifier := i, info_age := now - s.info_timestamp,
                 error := none } ∧
      (pats = none → e.info = info) ∧
      (∀ ps, pats = some ps → ∀ kv, kv ∈ e.info ↔
        kv ∈ info ∧ ∃ p, p ∈ ps ∧ GlobSpec p.data kv.1.data) ∧
      (∀ pats2, ∃ e2, getInfos pub now (some [i]) pats2 true = Except.ok [e2] ∧
        e2.meta = e.meta) := by
  refine ⟨mkEntry pub now pats i, by simp [getInfos], ?_, ?_, ?_, ?_⟩
  · simp [mkEntry, entryOfLookup, hs, hi]
  · intro hp
    subst hp
    simp [mkEntry, entryOfLookup, hs, hi, keepKey]
  · intro ps hp kv
    subst hp
    simp only [mkEntry, entryOfLookup, hs, hi, List.mem_filter]
    constructor
    · rintro ⟨h1, h2⟩
      refine ⟨h1, ?_⟩
      obtain ⟨p, hp1, hp2⟩ := List.any_eq_true.mp (by simpa [keepKey] using h2)
      exact ⟨p, hp1, globMatch_iff.mp hp2⟩
    · rintro ⟨h1, p, hp1, hp2⟩
      refine ⟨h1, ?_⟩
      simp only [keepKey, List.any_eq_true]
      exact ⟨p, hp1, globMatch_iff.mpr hp2⟩
  · intro pats2
    refine ⟨mkEntry pub now pats2 i, by simp [getInfos], ?_⟩
    simp [mkEntry, entryOfLookup, hs, hi]

def shardW4 : Shard :=
  setInfo (mkShard "shard-1" none)
    [("dummy_key1", "dummy"), ("dummy_key2", "dummy"),
     ("removed_key1", "removed"), ("removed_key2", "removed")] 5

theorem getInfos_key_pattern_filtering_witness :
    ∃ e, getInfos (addShard [] shardW4) 6 (some ["shard-1"]) (some ["dummy*"]) true =
        Except.ok [e] ∧
      e.meta = { shard_identifier := "shard-1", info_age := 6 - shardW4.info_timestamp,
                 error := none } ∧
      ((some ["dummy*"] : Option (List String)) = none →
        e.info = [("dummy_key1", "dummy"), ("dummy_key2", "dummy"),
                  ("removed_key1", "removed"), ("removed_key2", "removed")]) ∧
      (∀ ps, (some ["dummy*"] : Option (List String)) = some ps → ∀ kv, kv ∈ e.info ↔
        kv ∈ [("dummy_key1", "dummy"), ("dummy_key2", "dummy"),
              ("removed_key1", "removed"), ("removed_key2", "removed")] ∧
        ∃ p, p ∈ ps ∧ GlobSpec p.data kv.1.data) ∧
      (∀ pats2, ∃ e2, getInfos (addShard [] shardW4) 6 (some ["shard-1"]) pats2 true =
          Except.ok [e2] ∧ e2.meta = e.meta) :=
  getInfos_key_pattern_filtering (addShard [] shardW4) 6 "shard-1" shardW4
    [("dummy_key1", "dummy"), ("dummy_key2", "dummy"),
     ("removed_key1", "removed"), ("removed_key2", "removed")]
    (some ["dummy*"]) (by decide) (by decide)

/-- C5 -/
theorem getInfos_default_queries_all (pub : Publisher) (now : ℚ)
    (pats : Option (List String)) (ap : Bool) (hnd : (liveIds pub).Nodup) :
    (∃ es, getInfos pub now none pats true = Except.ok es) ∧
    ∀ es, getInfos pub now none pats ap = Except.ok es →
      es.map (fun e => e.meta.shard_identifier) = liveIds pub ∧
      es.length = (liveIds pub).length ∧
      (es.map (fun e => e.meta.shard_identifier)).Nodup := by
  have hmap : ((liveIds pub).map (mkEntry pub now pats)).map
      (fun e => e.meta.shard_identifier) = liveIds pub := by
    rw [List.map_map]
    have : ∀ x ∈ liveIds pub,
        ((fun e => e.meta.shard_identifier) ∘ mkEntry pub now pats) x = id x := by
      intro x _
      simp [Function.comp, mkEntry_id]
    rw [List.map_congr_left this, List.map_id]
  constructor
  · exact ⟨(liveIds pub).map (mkEntry pub now pats), by simp [getInfos]⟩
  · intro es h
    have hes : es = (liveIds pub).map (mkEntry pub now pats) := by
      cases ap with
      | true =>
        simp only [getInfos, if_true] at h
        exact (Except.ok.injEq _ _ |>.mp h).symm
      | false =>
        simp only [getInfos, Bool.false_eq_true, if_false] at h
        cases hf : (liveIds pub).filter (isMissing pub) with
        | nil => rw [hf] at h; simpa using h.symm
        | cons a as => rw [hf] at h; simp at h
    subst hes
    refine ⟨hmap, by simp, ?_⟩
    rw [hmap]
    exact hnd

def pubW5 : Publisher :=
  addShard (addShard (addShard []
    (setInfo (mkShard "shard-1" none) [("a", "1")] 5))
    (setInfo (mkShard "shard-2" none) [("b", "2")] 5))
    (setInfo (mkShard "shard-3" none) [("c", "3")] 5)

theorem getInfos_default_queries_all_witness :
    (∃ es, getInfos pubW5 6 none none true = Except.ok es) ∧
    ∀ es, getInfos pubW5 6 none none false = Except.ok es →
      es.map (fun e => e.meta.shard_identifier) = liveIds pubW5 ∧
      es.length = (liveIds pubW5).length ∧
      (es.map (fun e => e.meta.shard_identifier)).Nodup :=
  getInfos_default_queries_all pubW5 6 none false (by decide)

/-- C6 -/
theorem info_age_tracks_elapsed_time (pub : Publisher) (id : String) (s : Shard)
    (info : Info) (T Δ ε now : ℚ) (hε : 0 ≤ ε)
    (hs : getShard pub id = some (setInfo s info T)) :
    (Δ ≤ currentInfoAge (T + Δ) (setInfo s info T) ∧
      currentInfoAge (T + Δ) (setInfo s info T) ≤ Δ + ε) ∧
    (∃ e, getInfos pub (T + Δ) (some [id]) none true = Except.ok [e] ∧
      e.meta.info_age = Δ ∧ e.meta.shard_identifier = id) ∧
    watcherInfoAge (T + Δ) (setInfo s info T) = Δ ∧
    (∀ s2 : Shard, s2.info = none → currentInfoAge now s2 = INFINITE_AGE) := by
  have hage : currentInfoAge (T + Δ) (setInfo s info T) = Δ := by
    simp [currentInfoAge, setInfo]
  refine ⟨⟨by rw [hage], by rw [hage]; linarith⟩, ?_, ?_, ?_⟩
  · refine ⟨mkEntry pub (T + Δ) none id, by simp [getInfos], ?_, mkEntry_id _ _ _ _⟩
    simp [mkEntry, entryOfLookup, hs, setInfo]
  · simp [watcherInfoAge, setInfo]
  · intro s2 h2
    simp [currentInfoAge, h2]

theorem info_age_tracks_elapsed_time_witness :
    ((3 : ℚ) ≤ currentInfoAge (5 + 3) (setInfo (mkShard "shard-1" none) [("a", "1")] 5) ∧
      currentInfoAge (5 + 3) (setInfo (mkShard "shard-1" none) [("a", "1")] 5) ≤ 3 + 1) ∧
    (∃ e, getInfos (addShard [] (setInfo (mkShard "shard-1" none) [("a", "1")] 5))
        (5 + 3) (some ["shard-1"]) none true = Except.ok [e] ∧
      e.meta.info_age = 3 ∧ e.meta.shard_identifier = "shard-1") ∧
    watcherInfoAge (5 + 3) (setInfo (mkShard "shard-1" none) [("a", "1")] 5) = 3 ∧
    (∀ s2 : Shard, s2.info = none → currentInfoAge 7 s2 = INFINITE_AGE) :=
  info_age_tracks_elapsed_time (addShard [] (setInfo (mkShard "shard-1" none) [("a", "1")] 5))
    "shard-1" (mkShard "shard-1" none) [("a", "1")] 5 3 1 7 (by norm_num) (by decide)



theorem getInfosE_eq (pub : Publisher) (now : ℚ) (sids pats : Option (List String))
    (ap : Bool) :
    getInfosE pub now sids pats ap = (getInfos pub now sids pats ap, pub, []) := by
  unfold getInfosE getInfos
  cases sids with
  | none =>
    cases ap with
    | true => simp [getInfosListE_pure]
    | false =>
      cases hf : (liveIds pub).filter (isMissing pub) with
      | nil => simp [hf, getInfosListE_pure]
      | cons a as => simp [hf]
  | some l =>
    cases ap with
    | true => simp [getInfosListE_pure]
    | false =>
      cases hf : l.filter (isMissing pub) with
      | nil => simp [hf, getInfosListE_pure]
      | cons a as => simp [hf]

/-- C7 -/
theorem getInfos_is_pure_read (pub : Publisher) (now : ℚ)
    (sids pats : Option (List String)) (ap : Bool) :
    (getInfosE pub now sids pats ap).2.1 = pub ∧
    (getInfosE pub now sids pats ap).2.2 = [] ∧
    (getInfosE pub now sids pats ap).1 = getInfos pub now sids pats ap := by
  rw [getInfosE_eq]
  exact ⟨rfl, rfl, rfl⟩

/-- C8 -/
theorem scanCycle_publishes_detected (pub : Publisher) (cur : List Shard) :
    (∀ i, i ∈ liveIds (scanCycle pub cur) ↔ i ∈ cur.map Shard.id) ∧
    (∀ i, i ∈ liveIds pub → i ∈ cur.map Shard.id →
      getShard (scanCycle pub cur) i = getShard pub i) := by
  constructor
  · intro i
    unfold scanCycle
    rw [foldl_del_mem, foldl_add_mem]
    by_cases hp : i ∈ liveIds pub <;> by_cases hc : i ∈ cur.map Shard.id <;> tauto
  · intro i hp hc
    unfold scanCycle
    rw [foldl_del_getShard _ _ _ _ hc, foldl_add_getShard _ _ _ _ hp]

def pubW8 : Publisher := [mkShard "a" none, mkShard "b" none]

def curW8 : List Shard := [mkShard "b" none, mkShard "c" none]

theorem scanCycle_publishes_detected_witness :
    ("c" ∈ liveIds (scanCycle pubW8 curW8) ↔ "c" ∈ curW8.map Shard.id) ∧
    getShard (scanCycle pubW8 curW8) "b" = getShard pubW8 "b" :=
  ⟨(scanCycle_publishes_detected pubW8 curW8).1 "c",
   (scanCycle_publishes_detected pubW8 curW8).2 "b" (by decide) (by decide)⟩

/-- C9 -/
theorem connection_factory_lazy (procs : List (Nat × Option Nat)) (pub : Publisher)
    (shards : List Shard) (now : ℚ) (sids pats : Option (List String)) (ap : Bool)
    (id : String) (info : Info) (T : ℚ) :
    (getCurLiveShardsE procs).2 = [] ∧
    (addAllE pub shards).2 = [] ∧
    (mkShardE id none).1.factory = none ∧ (mkShardE id none).2 = [] ∧
    (getInfosE pub now sids pats ap).2.2 = [] ∧
    (∀ (s2 : Shard) (fetched : Option Info),
      Event.factoryInvoked s2.id ∈ (refreshE s2 fetched now).2) ∧
    (∃ e, getInfos (addShard pub (setInfo (mkShard id none) info T)) now (some [id])
        pats false = Except.ok [e] ∧ e.meta.error = none) := by
  have hget : getShard (addShard pub (setInfo (mkShard id none) info T)) id =
      some (setInfo (mkShard id none) info T) := by
    simpa [setInfo, mkShard] using
      getShard_addShard_self pub (setInfo (mkShard id none) info T)
  refine ⟨by simp [getCurLiveShardsE_eq], by simp [addAllE_pure], rfl, rfl,
    by simp [getInfosE_eq], ?_, ?_⟩
  · intro s2 fetched
    cases hf : s2.factory with
    | none => simp [refreshE, hf]
    | some c => cases fetched <;> simp [refreshE, hf]
  · have hm : isMissing (addShard pub (setInfo (mkShard id none) info T)) id = false := by
      unfold isMissing
      rw [hget]
      simp [setInfo]
    refine ⟨mkEntry (addShard pub (setInfo (mkShard id none) info T)) now pats id, ?_, ?_⟩
    · simp [getInfos, List.filter_cons, hm]
    · simp only [mkEntry]
      rw [hget]
      simp [entryOfLookup, setInfo]

/-- C10 -/
theorem watcher_loop_dies_on_exception (stop raises : Nat → Bool) (m : Nat)
    (hstop : ∀ j, stop j = false) (hm : raises m = true)
    (hfirst : ∀ j, j < m → raises j = false) :
    (∀ fuel, greenletTrace stop raises fuel 0 = List.range (min fuel (m + 1))) ∧
    (∀ fuel j, j ∈ greenletTrace stop raises fuel 0 → j ≤ m) := by
  have key : ∀ fuel, greenletTrace stop raises fuel 0 = List.range (min fuel (m + 1)) := by
    intro fuel
    have h := greenletTrace_eq stop raises m hstop hm hfirst fuel 0 (Nat.zero_le m)
    simpa using h
  refine ⟨key, ?_⟩
  intro fuel j hj
  rw [key] at hj
  have := List.mem_range.mp hj
  omega

theorem watcher_loop_dies_on_exception_witness :
    (∀ fuel, greenletTrace (fun _ => false) (fun k => k == 2) fuel 0 =
      List.range (min fuel 3)) ∧
    (∀ fuel j, j ∈ greenletTrace (fun _ => false) (fun k => k == 2) fuel 0 → j ≤ 2) :=
  watcher_loop_dies_on_exception (fun _ => false) (fun k => k == 2) 2 (fun _ => rfl) rfl
    (fun j hj => by interval_cases j <;> rfl)


end RedisInfo
